import Mathlib

/-!
# Verification of the bfstub ("discharge") image/subimage layer

A shallow embedding of `src/image.c` (and the parts of its collaborators it
relies on) together with proofs about the embedded definitions.

Modelling conventions:
* machine bytes are `Nat` values (each meaningful byte is `< 256`; the
  big-endian encoders reduce modulo 256 explicitly);
* physical memory is a total function `Nat → Nat` from addresses to bytes;
* C strings (property names, node paths) are `List Char`;
* a flattened device tree that the code manipulates through the libfdt
  accessors is modelled structurally, as a list of nodes, each carrying its
  full canonical path and its property list;
* fallible C functions returning a negative `int` error keep that shape
  (`Int` results, negative on failure), out-parameters become explicit
  record fields that are `Option`-valued (`none` = never written).

The libfdt tree accessor and `memmove` are vendored collaborators of the
repository whose definitions are absent from `src/`; they are modelled from
the specification's description of the Tree Accessor contract and of the
move-safe copy, as noted on each such definition.
-/

/-! ## Big-endian cell encodings -/

/-- Decode the first four bytes of a list as a big-endian 32-bit integer
(the `fdt32_to_cpu` conversion applied to a cell read from property data).
Missing bytes read as zero. -/
def be32dec (l : List Nat) : Nat :=
  (l.getD 0 0) * 2 ^ 24 + (l.getD 1 0) * 2 ^ 16 + (l.getD 2 0) * 2 ^ 8 + l.getD 3 0

/-- Encode a natural number as a big-endian 32-bit cell (four bytes). -/
def be32enc (v : Nat) : List Nat :=
  [v / 2 ^ 24 % 256, v / 2 ^ 16 % 256, v / 2 ^ 8 % 256, v % 256]

/-- Encode a natural number modulo `2^64` as two big-endian 32-bit cells,
high word first: the byte image `fdt_setprop_u64` stores. -/
def be64enc (v : Nat) : List Nat :=
  be32enc (v / 2 ^ 32 % 2 ^ 32) ++ be32enc (v % 2 ^ 32)

/-- The byte image of a C string as stored by `fdt_setprop_string`: the
characters' byte values followed by the NUL terminator. -/
def strBytes (s : List Char) : List Nat :=
  s.map Char.toNat ++ [0]

theorem be32dec_be32enc (v : Nat) : be32dec (be32enc v) = v % 2 ^ 32 := by
  simp only [be32enc, be32dec, List.getD]
  simp only [List.get?]
  show v / 2 ^ 24 % 256 * 2 ^ 24 + v / 2 ^ 16 % 256 * 2 ^ 16 +
      v / 2 ^ 8 % 256 * 2 ^ 8 + v % 256 = v % 2 ^ 32
  omega

/-! ## Byte memory and the move-safe copy -/

/-- Physical byte memory. -/
def Mem : Type := Nat → Nat

/-- Write one byte. -/
def writeByte (m : Mem) (a v : Nat) : Mem :=
  fun x => if x = a then v else m x

/-- Read `n` consecutive bytes starting at `addr`. -/
def readBytes (m : Mem) (addr n : Nat) : List Nat :=
  (List.range n).map (fun i => m (addr + i))

/-- Copy `n` bytes from `src` to `dst` in increasing index order
(byte `0` first), each byte read from the memory produced so far. -/
def copyFwd (dst src : Nat) : Nat → Mem → Mem
  | 0, m => m
  | n + 1, m => writeByte (copyFwd dst src n m) (dst + n) (copyFwd dst src n m (src + n))

/-- Copy `n` bytes from `src` to `dst` in decreasing index order
(byte `n-1` first), each byte read from the memory produced so far. -/
def copyBwd (dst src : Nat) : Nat → Mem → Mem
  | 0, m => m
  | n + 1, m => copyBwd dst src n (writeByte m (dst + n) (m (src + n)))

/-- Modelled from the spec: `memmove` is declared in `include/microlib.h` but
its definition is absent from `src/`; the spec requires "a move-safe copy, not
a naive forward copy, since destination may precede or follow source".  The
classic move-safe implementation copies forward when the destination precedes
the source and backward otherwise. -/
def memmove (dst src n : Nat) (m : Mem) : Mem :=
  if dst ≤ src then copyFwd dst src n m else copyBwd dst src n m

theorem copyFwd_untouched (dst src : Nat) (n : Nat) (m : Mem) (a : Nat)
    (h : a < dst ∨ dst + n ≤ a) : copyFwd dst src n m a = m a := by
  induction n with
  | zero => rfl
  | succ k ih =>
      simp only [copyFwd, writeByte]
      rw [if_neg (by omega)]
      exact ih (by omega)

theorem copyBwd_untouched (dst src : Nat) (n : Nat) (m : Mem) (a : Nat)
    (h : a < dst ∨ dst + n ≤ a) : copyBwd dst src n m a = m a := by
  induction n generalizing m with
  | zero => rfl
  | succ k ih =>
      simp only [copyBwd]
      rw [ih _ (by omega)]
      simp only [writeByte]
      rw [if_neg (by omega)]

theorem copyFwd_copied (dst src : Nat) (n : Nat) (m : Mem) (hle : dst ≤ src) :
    ∀ i, i < n → copyFwd dst src n m (dst + i) = m (src + i) := by
  induction n with
  | zero => intro i hi; omega
  | succ k ih =>
      intro i hi
      simp only [copyFwd, writeByte]
      by_cases hik : i = k
      · subst hik
        rw [if_pos rfl]
        exact copyFwd_untouched dst src i m (src + i) (by omega)
      · rw [if_neg (by omega)]
        exact ih i (by omega)

theorem copyBwd_copied (dst src : Nat) (n : Nat) (m : Mem) (hlt : src < dst) :
    ∀ i, i < n → copyBwd dst src n m (dst + i) = m (src + i) := by
  induction n generalizing m with
  | zero => intro i hi; omega
  | succ k ih =>
      intro i hi
      simp only [copyBwd]
      by_cases hik : i = k
      · subst hik
        rw [copyBwd_untouched dst src i _ (dst + i) (by omega)]
        simp [writeByte]
      · rw [ih _ i (by omega)]
        simp only [writeByte]
        rw [if_neg (by omega)]

/-- The move-safe copy delivers the original source bytes, whatever the
overlap between the two ranges. -/
theorem memmove_copies (dst src n : Nat) (m : Mem) (i : Nat) (hi : i < n) :
    memmove dst src n m (dst + i) = m (src + i) := by
  unfold memmove
  by_cases h : dst ≤ src
  · rw [if_pos h]; exact copyFwd_copied dst src n m h i hi
  · rw [if_neg h]; exact copyBwd_copied dst src n m (by omega) i hi


/-- The move-safe copy writes nothing outside the destination range. -/
theorem memmove_frame (dst src n : Nat) (m : Mem) (a : Nat)
    (h : a < dst ∨ dst + n ≤ a) : memmove dst src n m a = m a := by
  unfold memmove
  by_cases hle : dst ≤ src
  · rw [if_pos hle]; exact copyFwd_untouched dst src n m a h
  · rw [if_neg hle]; exact copyBwd_untouched dst src n m a h

/-! ## libfdt error codes and the device-tree model

The repository vendors libfdt but that vendored copy is absent from `src/`
(only `image.c`'s calls and `image.h`'s declarations appear there).  The
accessors below are therefore modelled from the spec's Tree Accessor
contract (§4.2 of the design): structural node/property operations over a
tree, failing with signed error codes, with `AlreadyExists` reported by
subnode creation and re-resolution left to the caller.  The model has
unbounded headroom, so property writes always succeed, matching the
claims' "sufficient headroom" hypotheses. -/

def SUCCESS : Int := 0
def FDT_ERR_NOTFOUND : Int := 1
def FDT_ERR_EXISTS : Int := 2
def FDT_ERR_BADOFFSET : Int := 4
def FDT_ERR_BADPATH : Int := 5
def FDT_ERR_BADMAGIC : Int := 9
def FDT_ERR_BADVERSION : Int := 10
def FDT_ERR_BADVALUE : Int := 15

/-- A device-tree property: a name, the physical address at which its data
bytes reside inside the containing tree buffer, and the data bytes. -/
structure FdtProp where
  name : List Char
  addr : Nat
  data : List Nat
  deriving DecidableEq

/-- A device-tree node, carrying its full canonical path. -/
structure FdtNode where
  path : List Char
  props : List FdtProp
  deriving DecidableEq

/-- A flattened device tree: node offsets become indices into the node
list, so offsets of existing nodes are stable under subnode creation. -/
structure Fdt where
  nodes : List FdtNode
  deriving DecidableEq

/-- First property of the given name, as libfdt property search does. -/
def getPropList (name : List Char) : List FdtProp → Option FdtProp
  | [] => none
  | p :: ps => if p.name = name then some p else getPropList name ps

/-- Replace the data of the named property, or create it (libfdt
`fdt_setprop`); a created property's data address is immaterial to the
code under proof and is recorded as `0`. -/
def setPropList (name : List Char) (d : List Nat) : List FdtProp → List FdtProp
  | [] => [⟨name, 0, d⟩]
  | p :: ps => if p.name = name then ⟨name, p.addr, d⟩ :: ps else p :: setPropList name d ps

/-- Append bytes to the named property's data, creating the property when
absent (libfdt `fdt_appendprop`). -/
def appendPropList (name : List Char) (d : List Nat) : List FdtProp → List FdtProp
  | [] => [⟨name, 0, d⟩]
  | p :: ps =>
      if p.name = name then ⟨name, p.addr, p.data ++ d⟩ :: ps
      else p :: appendPropList name d ps

/-- Index of the first node with the given canonical path. -/
def pathIdxAux (p : List Char) : List FdtNode → Option Nat
  | [] => none
  | n :: ns => if n.path = p then some 0 else (pathIdxAux p ns).map (· + 1)

/-- Index of the first node of `f` with the given canonical path. -/
def pathIdx (f : Fdt) (p : List Char) : Option Nat :=
  pathIdxAux p f.nodes

/-- Number of nodes of `f` with the given canonical path. -/
def countPath (p : List Char) : List FdtNode → Nat
  | [] => 0
  | n :: ns => (if n.path = p then 1 else 0) + countPath p ns

/-- libfdt `fdt_path_offset`: absolute path lookup.  A path that does not
start with `/` (and is not an alias, which this boot stub never defines)
fails with `FDT_ERR_BADPATH`; a missing node fails with
`FDT_ERR_NOTFOUND`. -/
def fdt_path_offset (f : Fdt) (p : List Char) : Int :=
  if p.head? = some '/' then
    match pathIdx f p with
    | some i => Int.ofNat i
    | none => -FDT_ERR_NOTFOUND
  else -FDT_ERR_BADPATH

/-- libfdt `fdt_getprop`/`fdt_get_property`: property of a node offset. -/
def fdt_getprop (f : Fdt) (node : Int) (name : List Char) : Option FdtProp :=
  if 0 ≤ node then
    match f.nodes[node.toNat]? with
    | some nd => getPropList name nd.props
    | none => none
  else none

/-- The `*lenp` out-parameter `fdt_getprop` fills: the data length on
success, the negative error code otherwise. -/
def propSize (r : Option FdtProp) : Int :=
  match r with
  | none => -FDT_ERR_NOTFOUND
  | some p => Int.ofNat p.data.length

/-- Canonical path of a direct subnode. -/
def childPath (parentPath name : List Char) : List Char :=
  if parentPath = ['/'] then '/' :: name else parentPath ++ '/' :: name

/-- libfdt `fdt_add_subnode`: create a named subnode of the node at the
given offset, failing with `FDT_ERR_EXISTS` when it is already present.
The new node is appended, so existing offsets remain valid. -/
def fdt_add_subnode (f : Fdt) (parent : Int) (name : List Char) : Fdt × Int :=
  if 0 ≤ parent then
    match f.nodes[parent.toNat]? with
    | some pd =>
        match pathIdx f (childPath pd.path name) with
        | some _ => (f, -FDT_ERR_EXISTS)
        | none => (⟨f.nodes ++ [⟨childPath pd.path name, []⟩]⟩, Int.ofNat f.nodes.length)
    | none => (f, -FDT_ERR_BADOFFSET)
  else (f, -FDT_ERR_BADOFFSET)

/-- libfdt `fdt_setprop`: overwrite or create a property of a node. -/
def fdt_setprop (f : Fdt) (node : Int) (name : List Char) (d : List Nat) : Fdt × Int :=
  if 0 ≤ node then
    match f.nodes[node.toNat]? with
    | some nd =>
        (⟨f.nodes.set node.toNat { nd with props := setPropList name d nd.props }⟩, SUCCESS)
    | none => (f, -FDT_ERR_BADOFFSET)
  else (f, -FDT_ERR_BADOFFSET)

/-- libfdt `fdt_appendprop`: append bytes to a property of a node. -/
def fdt_appendprop (f : Fdt) (node : Int) (name : List Char) (d : List Nat) : Fdt × Int :=
  if 0 ≤ node then
    match f.nodes[node.toNat]? with
    | some nd =>
        (⟨f.nodes.set node.toNat { nd with props := appendPropList name d nd.props }⟩, SUCCESS)
    | none => (f, -FDT_ERR_BADOFFSET)
  else (f, -FDT_ERR_BADOFFSET)

/-- libfdt `fdt_setprop_string`: stores the characters plus NUL. -/
def fdt_setprop_string (f : Fdt) (node : Int) (name s : List Char) : Fdt × Int :=
  fdt_setprop f node name (strBytes s)

/-- libfdt `fdt_appendprop_string`: appends the characters plus NUL. -/
def fdt_appendprop_string (f : Fdt) (node : Int) (name s : List Char) : Fdt × Int :=
  fdt_appendprop f node name (strBytes s)

/-- libfdt `fdt_setprop_u64`: stores the value as two big-endian cells. -/
def fdt_setprop_u64 (f : Fdt) (node : Int) (name : List Char) (v : Nat) : Fdt × Int :=
  fdt_setprop f node name (be64enc v)

/-- libfdt `fdt_appendprop_u64`: appends the value as two big-endian cells. -/
def fdt_appendprop_u64 (f : Fdt) (node : Int) (name : List Char) (v : Nat) : Fdt × Int :=
  fdt_appendprop f node name (be64enc v)

/-- Data bytes of a property reached by path lookup, the way the final
trees are read back in the statements below. -/
def getPropByPath (f : Fdt) (p name : List Char) : Option (List Nat) :=
  match pathIdx f p with
  | some i => (fdt_getprop f (Int.ofNat i) name).map (·.data)
  | none => none

/-! ## `src/image.c`: header validation and the cache-coherence gate -/

/-- The flattened-device-tree magic number. -/
def fdtMagic : Nat := 0xd00dfeed

/-- Big-endian 32-bit field of a buffer at a byte offset. -/
def be32at (img : List Nat) (off : Nat) : Nat :=
  be32dec ((img.drop off).take 4)

/-- `fdt_totalsize`: the big-endian size field at byte offset 4. -/
def fdt_totalsize (img : List Nat) : Nat :=
  be32at img 4

/-- Modelled from the spec: `fdt_check_header` belongs to the vendored
libfdt absent from `src/`; §4.2 describes `validate_header` as a
structural sanity check of the magic number and supported version, §7
classes bad magic/version as `HeaderInvalid`.  The version field sits at
byte offset 20 and the last-compatible-version field at offset 24; the
supported version window is 16–17. -/
def fdt_check_header (img : List Nat) : Int :=
  if be32at img 0 ≠ fdtMagic then -FDT_ERR_BADMAGIC
  else if be32at img 20 < 16 ∨ 17 < be32at img 24 then -FDT_ERR_BADVERSION
  else SUCCESS

/-- Observable operations `ensure_image_is_accessible` may perform on the
buffer besides reading its header fields: the single-line cache
invalidation, the `[line_size, total_size)` region invalidation, and
property reads. -/
inductive ImageEvent where
  | invLine : ImageEvent
  | invRegion : Nat → ImageEvent
  | propRead : List Char → ImageEvent
  deriving DecidableEq

/-- `ensure_image_is_accessible` (src/image.c:38-63): invalidate the first
cache line, validate the header, and only then invalidate the rest of the
image's cache lines.  Result code paired with the trace of operations
performed on the buffer. -/
def ensure_image_is_accessible (img : List Nat) : Int × List ImageEvent :=
  let rc := fdt_check_header img
  if rc ≠ SUCCESS then (rc, [ImageEvent.invLine])
  else (SUCCESS, [ImageEvent.invLine, ImageEvent.invRegion (fdt_totalsize img)])

/-- `location_from_devicetree` (src/image.c:70-73): a 32-bit device-tree
cell, converted from big-endian and zero-extended to a full address. -/
def location_from_devicetree (cell : List Nat) : Nat :=
  be32dec cell

/-- `find_node` (src/image.c:80-91): `fdt_path_offset` plus progress
printing, which has no effect on the result. -/
def find_node (f : Fdt) (p : List Char) : Int :=
  fdt_path_offset f p

/-! ## `src/image.c`: locating the FIT subimage -/

/-- The state `find_fit_subimage` works over: the boot FDT (as a tree),
the physical address that tree lives at (the `fdt` pointer itself), and
the byte memory from which a located subimage's header is read. -/
structure World where
  fdt : Fdt
  fdtAddr : Nat
  mem : Mem

/-- Bytes of a header span a single cache line is assumed to cover; the
header fields read by validation all lie within the first 28 bytes. -/
def fdtHeaderSpan : Nat := 28

/-- `find_fit_subimage` (src/image.c:100-148): look up `/chosen`, read its
`linux,initrd-start` cell, and treat it as the address of the FIT
container; when the property is absent or empty, fall back to the boot
FDT itself; a located container must pass `ensure_image_is_accessible`.
Returns the container address, `none` standing for C's `NULL`. -/
def find_fit_subimage (w : World) : Option Nat :=
  let chosenNode := find_node w.fdt "/chosen".toList
  if chosenNode < 0 then none
  else
    let propR := fdt_getprop w.fdt chosenNode "linux,initrd-start".toList
    if propSize propR ≤ 0 then some w.fdtAddr
    else
      let subimage := location_from_devicetree (propR.getD ⟨[], 0, []⟩).data
      let rc := (ensure_image_is_accessible (readBytes w.mem subimage fdtHeaderSpan)).1
      if rc ≠ SUCCESS then none else some subimage

/-! ## `src/image.c`: extent resolution and component loading -/

/-- The three mandatory out-pointers and the optional node out-pointer of
`get_subcomponent_information`, as the values written through them
(`none` = never written). -/
structure SubOuts where
  loadLoc : Option Nat
  dataLoc : Option Nat
  size : Option Int
  node : Option Int
  deriving DecidableEq

/-- The state of the out-parameters before any write. -/
def noOuts : SubOuts := ⟨none, none, none, none⟩

/-- Node lookups and property reads performed on the image. -/
inductive AccessEvent where
  | nodeLookup : List Char → AccessEvent
  | propRead : List Char → AccessEvent
  deriving DecidableEq

/-- `get_subcomponent_information` (src/image.c:167-220).  The four `Bool`
arguments record which of the C out-pointers are NULL.  Returns the
result code, the out-parameter writes, and the trace of node lookups and
property reads performed on the image. -/
def get_subcomponent_information (img : Fdt) (path : List Char)
    (loadNull dataNull sizeNull nodeNull : Bool) :
    Int × SubOuts × List AccessEvent :=
  if dataNull || loadNull || sizeNull then (-FDT_ERR_BADVALUE, noOuts, [])
  else
    let node := find_node img path
    if node < 0 then (node, noOuts, [AccessEvent.nodeLookup path])
    else
      let dataR := fdt_getprop img node "data".toList
      let size := propSize dataR
      let ev1 := [AccessEvent.nodeLookup path, AccessEvent.propRead "data".toList]
      if size ≤ 0 then (size, noOuts, ev1)
      else
        let loadR := fdt_getprop img node "load".toList
        let loadSize := propSize loadR
        let ev2 := ev1 ++ [AccessEvent.propRead "load".toList]
        if loadSize ≤ 0 then (loadSize, noOuts, ev2)
        else
          (SUCCESS,
           { loadLoc := some (location_from_devicetree (loadR.getD ⟨[], 0, []⟩).data),
             dataLoc := some (dataR.getD ⟨[], 0, []⟩).addr,
             size := some size,
             node := if nodeNull then none else some node },
           ev2)

/-- The state `load_image_component` works over: the FIT image as a tree
whose property data also resides in byte memory. -/
structure MemWorld where
  img : Fdt
  mem : Mem

/-- `load_image_component` (src/image.c:233-263): resolve the component's
extents, then `memmove` the data bytes to the load location.  The
destination cache invalidation that precedes the copy does not change
memory contents and is elided.  Returns C's return value (`none` = NULL)
and the resulting memory. -/
def load_image_component (w : MemWorld) (path : List Char) : Option Nat × Mem :=
  let r := get_subcomponent_information w.img path false false false true
  if r.1 ≠ SUCCESS then (none, w.mem)
  else
    let outs := r.2.1
    (some (outs.loadLoc.getD 0),
     memmove (outs.loadLoc.getD 0) (outs.dataLoc.getD 0) (outs.size.getD 0).toNat w.mem)

/-- Modelled from the spec: §4.4 describes a second accessor
`resolve_extent_pair(fit, node)` reading a `reg` property as two
consecutive big-endian 64-bit cells (four 32-bit words: high/low address,
then high/low size).  No such accessor exists in `src/image.c`; this
definition follows the spec's words so it can be compared with the
source's single-cell decoder. -/
def resolve_extent_pair (fit : Fdt) (node : Int) : Option (Nat × Nat) :=
  match fdt_getprop fit node "reg".toList with
  | some p =>
      if p.data.length = 16 then
        some (be32dec (p.data.take 4) * 2 ^ 32 + be32dec ((p.data.drop 4).take 4),
              be32dec ((p.data.drop 8).take 4) * 2 ^ 32 + be32dec ((p.data.drop 12).take 4))
      else none
  | none => none

/-! ## `src/image.c`: patching the target device tree -/

/-- `update_fdt_memory` (src/image.c:339-391): ensure the target has a
`/memory` node, then copy the source's `/memory` `reg` property into it
verbatim (the C passes `source_reg->data` with length
`fdt32_to_cpu(source_reg->len)`, i.e. exactly the property's data). -/
def update_fdt_memory (target source : Fdt) : Fdt × Int :=
  let rootNode := find_node target "/".toList
  if rootNode < 0 then (target, rootNode)
  else
    let s1 := fdt_add_subnode target rootNode "memory".toList
    let memNode := if s1.2 = -FDT_ERR_EXISTS then find_node s1.1 "/memory".toList else s1.2
    if memNode < 0 then (s1.1, memNode)
    else
      let srcMem := fdt_path_offset source "/memory".toList
      if srcMem < 0 then (s1.1, srcMem)
      else
        match fdt_getprop source srcMem "reg".toList with
        | none => (s1.1, -FDT_ERR_BADVALUE)
        | some p => fdt_setprop s1.1 memNode "reg".toList p.data

/-- The straight-line tail of `update_fdt_for_xen` (src/image.c:435-465)
once the module node offset is resolved: set `compatible` to the role
string, append `"multiboot,module"`, set `reg` to the module address and
append its size as 64-bit cells, stopping at the first failing step. -/
def setModuleProps (f : Fdt) (moduleNode : Int) (compatible : List Char)
    (module sz : Nat) : Fdt × Int :=
  let s2 := fdt_setprop_string f moduleNode "compatible".toList compatible
  if s2.2 ≠ SUCCESS then (s2.1, s2.2)
  else
    let s3 := fdt_appendprop_string s2.1 moduleNode "compatible".toList
      "multiboot,module".toList
    if s3.2 ≠ SUCCESS then (s3.1, s3.2)
    else
      let s4 := fdt_setprop_u64 s3.1 moduleNode "reg".toList module
      if s4.2 ≠ SUCCESS then (s4.1, s4.2)
      else
        let s5 := fdt_appendprop_u64 s4.1 moduleNode "reg".toList sz
        if s5.2 ≠ SUCCESS then (s5.1, s5.2) else (s5.1, SUCCESS)

/-- `update_fdt_for_xen` (src/image.c:408-466): create (or re-resolve) the
module node — the creation skips the first character of
`module_node_name`, assumed to be the leading slash — then perform the
`compatible`/`reg` property writes of `setModuleProps` on it. -/
def update_fdt_for_xen (fdt : Fdt) (module sz : Nat)
    (compatible nodeName : List Char) : Fdt × Int :=
  let rootNode := find_node fdt "/".toList
  if rootNode < 0 then (fdt, rootNode)
  else
    let s1 := fdt_add_subnode fdt rootNode (nodeName.drop 1)
    let moduleNode := if s1.2 = -FDT_ERR_EXISTS then find_node s1.1 nodeName else s1.2
    if moduleNode < 0 then (s1.1, moduleNode)
    else setModuleProps s1.1 moduleNode compatible module sz

/-! ## List and property-list lemmas -/

theorem getElem?_set_same (l : List α) (i : Nat) (a : α) (h : i < l.length) :
    (l.set i a)[i]? = some a := by
  induction l generalizing i with
  | nil => simp at h
  | cons x xs ih =>
      cases i with
      | zero => simp
      | succ k => simpa using ih k (by simpa using h)

theorem set_getElem?_self (l : List α) (i : Nat) (a : α) (h : l[i]? = some a) :
    l.set i a = l := by
  induction l generalizing i with
  | nil => simp at h
  | cons x xs ih =>
      cases i with
      | zero => simp at h; simp [h]
      | succ k => simpa using ih k (by simpa using h)

theorem getElem?_concat_len (l : List α) (a : α) : (l ++ [a])[l.length]? = some a := by
  induction l with
  | nil => rfl
  | cons x xs ih => simp [ih]

theorem getPropList_set_same (nm : List Char) (d : List Nat) (ps : List FdtProp) :
    (getPropList nm (setPropList nm d ps)).map (·.data) = some d := by
  induction ps with
  | nil => simp [setPropList, getPropList]
  | cons p ps ih =>
      by_cases h : p.name = nm
      · simp [setPropList, getPropList, h]
      · simp [setPropList, getPropList, h, ih]

theorem getPropList_set_append_same (nm : List Char) (d e : List Nat) (ps : List FdtProp) :
    (getPropList nm (appendPropList nm e (setPropList nm d ps))).map (·.data) =
      some (d ++ e) := by
  induction ps with
  | nil => simp [setPropList, appendPropList, getPropList]
  | cons p ps ih =>
      by_cases h : p.name = nm
      · simp [setPropList, appendPropList, getPropList, h]
      · simp [setPropList, appendPropList, getPropList, h, ih]

theorem getPropList_set_ne (nm m : List Char) (hne : nm ≠ m) (d : List Nat)
    (ps : List FdtProp) : getPropList m (setPropList nm d ps) = getPropList m ps := by
  induction ps with
  | nil => simp [setPropList, getPropList, hne]
  | cons p ps ih =>
      by_cases h : p.name = nm
      · simp [setPropList, getPropList, h, hne]
      · simp [setPropList, getPropList, h, ih]

theorem getPropList_append_ne (nm m : List Char) (hne : nm ≠ m) (d : List Nat)
    (ps : List FdtProp) : getPropList m (appendPropList nm d ps) = getPropList m ps := by
  induction ps with
  | nil => simp [appendPropList, getPropList, hne]
  | cons p ps ih =>
      by_cases h : p.name = nm
      · simp [appendPropList, getPropList, h, hne]
      · simp [appendPropList, getPropList, h, ih]

/-! ## Path-index lemmas -/

theorem pathIdxAux_set_samePath (p : List Char) (ns : List FdtNode) (i : Nat)
    (nd nd' : FdtNode) (h : ns[i]? = some nd) (hp : nd'.path = nd.path) :
    pathIdxAux p (ns.set i nd') = pathIdxAux p ns := by
  induction ns generalizing i with
  | nil => simp at h
  | cons x xs ih =>
      cases i with
      | zero =>
          simp only [List.getElem?_cons_zero, Option.some_inj] at h
          simp [pathIdxAux, hp, h]
      | succ k =>
          simp only [List.getElem?_cons_succ] at h
          simp [pathIdxAux, ih k h]

theorem countPath_set_samePath (p : List Char) (ns : List FdtNode) (i : Nat)
    (nd nd' : FdtNode) (h : ns[i]? = some nd) (hp : nd'.path = nd.path) :
    countPath p (ns.set i nd') = countPath p ns := by
  induction ns generalizing i with
  | nil => simp at h
  | cons x xs ih =>
      cases i with
      | zero =>
          simp only [List.getElem?_cons_zero, Option.some_inj] at h
          simp [countPath, hp, h]
      | succ k =>
          simp only [List.getElem?_cons_succ] at h
          simp [countPath, ih k h]

theorem pathIdxAux_append_left (p : List Char) (ns ms : List FdtNode) (i : Nat)
    (h : pathIdxAux p ns = some i) : pathIdxAux p (ns ++ ms) = some i := by
  induction ns generalizing i with
  | nil => simp [pathIdxAux] at h
  | cons x xs ih =>
      by_cases hx : x.path = p
      · simp [pathIdxAux, hx] at h ⊢; exact h
      · simp only [pathIdxAux, if_neg hx, Option.map_eq_some'] at h
        obtain ⟨j, hj, rfl⟩ := h
        simp only [List.cons_append, pathIdxAux, if_neg hx, List.append_eq, ih j hj,
          Option.map_some']

theorem pathIdxAux_append_none (p : List Char) (ns ms : List FdtNode)
    (h : pathIdxAux p ns = none) :
    pathIdxAux p (ns ++ ms) = (pathIdxAux p ms).map (· + ns.length) := by
  induction ns with
  | nil => simp
  | cons x xs ih =>
      by_cases hx : x.path = p
      · simp [pathIdxAux, hx] at h
      · simp only [pathIdxAux, if_neg hx, Option.map_eq_none'] at h
        simp only [List.cons_append, pathIdxAux, if_neg hx, List.append_eq, ih h,
          List.length_cons, Option.map_map]
        cases pathIdxAux p ms with
        | none => simp
        | some j => simp [Function.comp]

theorem pathIdxAux_sound (p : List Char) (ns : List FdtNode) (i : Nat)
    (h : pathIdxAux p ns = some i) : ∃ nd, ns[i]? = some nd ∧ nd.path = p := by
  induction ns generalizing i with
  | nil => simp [pathIdxAux] at h
  | cons x xs ih =>
      by_cases hx : x.path = p
      · simp [pathIdxAux, hx] at h
        exact ⟨x, by simp [← h], hx⟩
      · simp only [pathIdxAux, if_neg hx, Option.map_eq_some'] at h
        obtain ⟨j, hj, rfl⟩ := h
        obtain ⟨nd, hnd, hp⟩ := ih j hj
        exact ⟨nd, by simpa using hnd, hp⟩

theorem countPath_eq_zero (p : List Char) (ns : List FdtNode)
    (h : pathIdxAux p ns = none) : countPath p ns = 0 := by
  induction ns with
  | nil => rfl
  | cons x xs ih =>
      by_cases hx : x.path = p
      · simp [pathIdxAux, hx] at h
      · simp only [pathIdxAux, if_neg hx, Option.map_eq_none'] at h
        simp [countPath, hx, ih h]

theorem countPath_pos (p : List Char) (ns : List FdtNode) (i : Nat)
    (h : pathIdxAux p ns = some i) : 1 ≤ countPath p ns := by
  induction ns generalizing i with
  | nil => simp [pathIdxAux] at h
  | cons x xs ih =>
      by_cases hx : x.path = p
      · simp [countPath, hx]
      · simp only [pathIdxAux, if_neg hx, Option.map_eq_some'] at h
        obtain ⟨j, hj, rfl⟩ := h
        simp only [countPath, if_neg hx]
        have := ih j hj
        omega

theorem countPath_append (p : List Char) (ns ms : List FdtNode) :
    countPath p (ns ++ ms) = countPath p ns + countPath p ms := by
  induction ns with
  | nil => simp [countPath]
  | cons x xs ih =>
      simp only [List.cons_append, countPath, List.append_eq, ih]
      omega

/-! ## Accessor evaluation lemmas -/

theorem find_node_found (f : Fdt) (p : List Char) (i : Nat)
    (hhead : p.head? = some '/') (h : pathIdx f p = some i) :
    find_node f p = Int.ofNat i := by
  simp [find_node, fdt_path_offset, hhead, h]

theorem find_node_missing (f : Fdt) (p : List Char)
    (hhead : p.head? = some '/') (h : pathIdx f p = none) :
    find_node f p = -FDT_ERR_NOTFOUND := by
  simp [find_node, fdt_path_offset, hhead, h]

theorem find_node_badpath (f : Fdt) (p : List Char) (hhead : p.head? ≠ some '/') :
    find_node f p = -FDT_ERR_BADPATH := by
  simp [find_node, fdt_path_offset, hhead]

theorem fdt_setprop_run (f : Fdt) (i : Nat) (nd : FdtNode) (h : f.nodes[i]? = some nd)
    (nm : List Char) (d : List Nat) :
    fdt_setprop f (Int.ofNat i) nm d =
      (⟨f.nodes.set i ⟨nd.path, setPropList nm d nd.props⟩⟩, SUCCESS) := by
  simp [fdt_setprop, h]

theorem fdt_appendprop_run (f : Fdt) (i : Nat) (nd : FdtNode) (h : f.nodes[i]? = some nd)
    (nm : List Char) (d : List Nat) :
    fdt_appendprop f (Int.ofNat i) nm d =
      (⟨f.nodes.set i ⟨nd.path, appendPropList nm d nd.props⟩⟩, SUCCESS) := by
  simp [fdt_appendprop, h]

theorem fdt_add_subnode_exists (f : Fdt) (r : Nat) (nd : FdtNode)
    (h : f.nodes[r]? = some nd) (name : List Char)
    (hex : pathIdx f (childPath nd.path name) ≠ none) :
    fdt_add_subnode f (Int.ofNat r) name = (f, -FDT_ERR_EXISTS) := by
  rcases ho : pathIdx f (childPath nd.path name) with _ | j
  · exact absurd ho hex
  · simp [fdt_add_subnode, h, ho]

theorem fdt_add_subnode_create (f : Fdt) (r : Nat) (nd : FdtNode)
    (h : f.nodes[r]? = some nd) (name : List Char)
    (hnew : pathIdx f (childPath nd.path name) = none) :
    fdt_add_subnode f (Int.ofNat r) name =
      (⟨f.nodes ++ [⟨childPath nd.path name, []⟩]⟩, Int.ofNat f.nodes.length) := by
  simp [fdt_add_subnode, h, hnew]

/-! ## The property-setting tail of `update_fdt_for_xen`

The four property operations `update_fdt_for_xen` performs once the
module node is resolved, evaluated as a whole at a resolved node index. -/

/-- Property list after the `compatible`/`reg` set-append sequence. -/
def xenProps (compatible : List Char) (module sz : Nat) (ps : List FdtProp) : List FdtProp :=
  appendPropList "reg".toList (be64enc sz)
    (setPropList "reg".toList (be64enc module)
      (appendPropList "compatible".toList (strBytes "multiboot,module".toList)
        (setPropList "compatible".toList (strBytes compatible) ps)))

theorem xenProps_compatible (compatible : List Char) (module sz : Nat) (ps : List FdtProp) :
    (getPropList "compatible".toList (xenProps compatible module sz ps)).map (·.data) =
      some (strBytes compatible ++ strBytes "multiboot,module".toList) := by
  unfold xenProps
  rw [getPropList_append_ne "reg".toList "compatible".toList (by decide),
    getPropList_set_ne "reg".toList "compatible".toList (by decide),
    getPropList_set_append_same]

theorem xenProps_reg (compatible : List Char) (module sz : Nat) (ps : List FdtProp) :
    (getPropList "reg".toList (xenProps compatible module sz ps)).map (·.data) =
      some (be64enc module ++ be64enc sz) := by
  unfold xenProps
  rw [getPropList_set_append_same]

/-- Chaining the four property writes of `update_fdt_for_xen` on the node
at index `i` rewrites that node's property list to `xenProps` and succeeds. -/
theorem xen_prop_chain (g : Fdt) (i : Nat) (nd : FdtNode) (h : g.nodes[i]? = some nd)
    (compatible : List Char) (module sz : Nat) :
    (fdt_appendprop_u64
      (fdt_setprop_u64
        (fdt_appendprop_string
          (fdt_setprop_string g (Int.ofNat i) "compatible".toList compatible).1
          (Int.ofNat i) "compatible".toList "multiboot,module".toList).1
        (Int.ofNat i) "reg".toList module).1
      (Int.ofNat i) "reg".toList sz) =
    (⟨g.nodes.set i ⟨nd.path, xenProps compatible module sz nd.props⟩⟩, SUCCESS) := by
  have hlen : i < g.nodes.length := by
    by_contra hc
    rw [List.getElem?_eq_none (by omega)] at h
    exact Option.noConfusion h
  rw [fdt_setprop_string, fdt_setprop_run g i nd h]
  rw [fdt_appendprop_string,
    fdt_appendprop_run _ i _ (getElem?_set_same g.nodes i _ hlen)]
  rw [List.set_set]
  rw [fdt_setprop_u64,
    fdt_setprop_run _ i _ (getElem?_set_same g.nodes i _ hlen)]
  rw [List.set_set]
  rw [fdt_appendprop_u64,
    fdt_appendprop_run _ i _ (getElem?_set_same g.nodes i _ hlen)]
  rw [List.set_set]
  rfl

theorem getElem?_lt_len (l : List α) (i : Nat) (a : α) (h : l[i]? = some a) :
    i < l.length := by
  by_contra hc
  rw [List.getElem?_eq_none (by omega)] at h
  exact Option.noConfusion h

theorem fdt_getprop_run (f : Fdt) (i : Nat) (nd : FdtNode) (h : f.nodes[i]? = some nd)
    (nm : List Char) : fdt_getprop f (Int.ofNat i) nm = getPropList nm nd.props := by
  simp [fdt_getprop, h]

theorem pathIdx_set (f : Fdt) (q : List Char) (i : Nat) (nd nd' : FdtNode)
    (hi : f.nodes[i]? = some nd) (hp : nd'.path = nd.path) :
    pathIdx ⟨f.nodes.set i nd'⟩ q = pathIdx f q :=
  pathIdxAux_set_samePath q f.nodes i nd nd' hi hp

theorem getPropByPath_set (f : Fdt) (p nm : List Char) (i : Nat) (nd nd' : FdtNode)
    (hi : f.nodes[i]? = some nd) (hp : nd'.path = nd.path)
    (hfind : pathIdx f p = some i) :
    getPropByPath ⟨f.nodes.set i nd'⟩ p nm = (getPropList nm nd'.props).map (·.data) := by
  have hlen := getElem?_lt_len f.nodes i nd hi
  have hpi : pathIdx (⟨f.nodes.set i nd'⟩ : Fdt) p = some i := by
    rw [pathIdx_set f p i nd nd' hi hp]; exact hfind
  simp only [getPropByPath, hpi]
  rw [fdt_getprop_run ⟨f.nodes.set i nd'⟩ i nd' (getElem?_set_same f.nodes i nd' hlen) nm]

theorem not_lt_zero_ofNat (k : Nat) : ¬ (Int.ofNat k < 0) :=
  Int.not_lt.mpr (Int.ofNat_nonneg k)

theorem ofNat_ne_neg_exists (k : Nat) : ¬ (Int.ofNat k = -FDT_ERR_EXISTS) := by
  intro hx
  have h0 : (0 : Int) ≤ Int.ofNat k := Int.ofNat_nonneg k
  rw [hx] at h0
  norm_num [FDT_ERR_EXISTS] at h0

/-- Running `setModuleProps` at a valid node index rewrites that node's
property list to `xenProps` and succeeds. -/
theorem setModuleProps_run (g : Fdt) (i : Nat) (nd : FdtNode) (h : g.nodes[i]? = some nd)
    (compatible : List Char) (module sz : Nat) :
    setModuleProps g (Int.ofNat i) compatible module sz =
      (⟨g.nodes.set i ⟨nd.path, xenProps compatible module sz nd.props⟩⟩, SUCCESS) := by
  have hlen := getElem?_lt_len g.nodes i nd h
  simp only [setModuleProps]
  rw [fdt_setprop_string, fdt_setprop_run g i nd h]
  dsimp only
  rw [if_neg (show ¬ (SUCCESS ≠ SUCCESS) from fun hx => hx rfl)]
  rw [fdt_appendprop_string,
    fdt_appendprop_run _ i _ (getElem?_set_same g.nodes i _ hlen)]
  dsimp only
  rw [if_neg (show ¬ (SUCCESS ≠ SUCCESS) from fun hx => hx rfl)]
  rw [List.set_set]
  rw [fdt_setprop_u64,
    fdt_setprop_run _ i _ (getElem?_set_same g.nodes i _ hlen)]
  dsimp only
  rw [if_neg (show ¬ (SUCCESS ≠ SUCCESS) from fun hx => hx rfl)]
  rw [List.set_set]
  rw [fdt_appendprop_u64,
    fdt_appendprop_run _ i _ (getElem?_set_same g.nodes i _ hlen)]
  dsimp only
  rw [if_neg (show ¬ (SUCCESS ≠ SUCCESS) from fun hx => hx rfl)]
  rw [List.set_set]
  rfl

/-- One successful run of `update_fdt_for_xen` on a leading-slash node
name: it succeeds, leaves exactly one node at that path, that node's
`compatible` and `reg` reflect this call's arguments, and the root's
offset is unchanged. -/
theorem update_xen_run (f : Fdt) (r : Nat) (rest : List Char) (module sz : Nat)
    (compatible : List Char)
    (hroot : pathIdx f "/".toList = some r)
    (hcount : countPath ('/' :: rest) f.nodes ≤ 1) :
    (update_fdt_for_xen f module sz compatible ('/' :: rest)).2 = SUCCESS ∧
    countPath ('/' :: rest) (update_fdt_for_xen f module sz compatible ('/' :: rest)).1.nodes
      = 1 ∧
    getPropByPath (update_fdt_for_xen f module sz compatible ('/' :: rest)).1
      ('/' :: rest) "compatible".toList =
      some (strBytes compatible ++ strBytes "multiboot,module".toList) ∧
    getPropByPath (update_fdt_for_xen f module sz compatible ('/' :: rest)).1
      ('/' :: rest) "reg".toList = some (be64enc module ++ be64enc sz) ∧
    pathIdx (update_fdt_for_xen f module sz compatible ('/' :: rest)).1 "/".toList
      = some r := by
  obtain ⟨rootNd, hr, hrp⟩ := pathIdxAux_sound "/".toList f.nodes r hroot
  have hfr : find_node f "/".toList = Int.ofNat r :=
    find_node_found f "/".toList r rfl hroot
  have hchild : childPath rootNd.path rest = '/' :: rest := by
    rw [hrp]; rfl
  rcases ho : pathIdx f ('/' :: rest) with _ | i
  · -- the module node does not exist yet: it is created at the end
    have hadd : fdt_add_subnode f (Int.ofNat r) rest =
        (⟨f.nodes ++ [⟨'/' :: rest, []⟩]⟩, Int.ofNat f.nodes.length) := by
      rw [fdt_add_subnode_create f r rootNd hr rest (by rw [hchild]; exact ho), hchild]
    have hnew : (⟨f.nodes ++ [⟨'/' :: rest, []⟩]⟩ : Fdt).nodes[f.nodes.length]? =
        some ⟨'/' :: rest, []⟩ := getElem?_concat_len f.nodes _
    have hres : update_fdt_for_xen f module sz compatible ('/' :: rest) =
        (⟨(f.nodes ++ [(⟨'/' :: rest, []⟩ : FdtNode)]).set f.nodes.length
            (⟨'/' :: rest, xenProps compatible module sz []⟩ : FdtNode)⟩, SUCCESS) := by
      simp only [update_fdt_for_xen, List.drop_succ_cons, List.drop_zero]
      rw [hfr, if_neg (not_lt_zero_ofNat r), hadd]
      dsimp only
      rw [if_neg (ofNat_ne_neg_exists f.nodes.length)]
      rw [if_neg (not_lt_zero_ofNat f.nodes.length)]
      exact setModuleProps_run ⟨f.nodes ++ [(⟨'/' :: rest, []⟩ : FdtNode)]⟩
        f.nodes.length ⟨'/' :: rest, []⟩ hnew compatible module sz
    rw [hres]
    dsimp only
    have hpa : pathIdx (⟨f.nodes ++ [(⟨'/' :: rest, []⟩ : FdtNode)]⟩ : Fdt) ('/' :: rest) =
        some f.nodes.length := by
      simp only [pathIdx] at ho ⊢
      rw [pathIdxAux_append_none _ _ _ ho]
      simp [pathIdxAux]
    refine ⟨rfl, ?_, ?_, ?_, ?_⟩
    · have hc1 := countPath_set_samePath ('/' :: rest)
        (f.nodes ++ [(⟨'/' :: rest, []⟩ : FdtNode)]) f.nodes.length
        ⟨'/' :: rest, []⟩ ⟨'/' :: rest, xenProps compatible module sz []⟩ hnew rfl
      rw [hc1, countPath_append]
      simp only [pathIdx] at ho
      rw [countPath_eq_zero _ _ ho]
      simp [countPath]
    · exact (getPropByPath_set ⟨f.nodes ++ [(⟨'/' :: rest, []⟩ : FdtNode)]⟩
        ('/' :: rest) "compatible".toList f.nodes.length ⟨'/' :: rest, []⟩
        ⟨'/' :: rest, xenProps compatible module sz []⟩ hnew rfl hpa).trans
        (xenProps_compatible compatible module sz [])
    · exact (getPropByPath_set ⟨f.nodes ++ [(⟨'/' :: rest, []⟩ : FdtNode)]⟩
        ('/' :: rest) "reg".toList f.nodes.length ⟨'/' :: rest, []⟩
        ⟨'/' :: rest, xenProps compatible module sz []⟩ hnew rfl hpa).trans
        (xenProps_reg compatible module sz [])
    · exact (pathIdx_set ⟨f.nodes ++ [(⟨'/' :: rest, []⟩ : FdtNode)]⟩
        "/".toList f.nodes.length ⟨'/' :: rest, []⟩
        ⟨'/' :: rest, xenProps compatible module sz []⟩ hnew rfl).trans
        (pathIdxAux_append_left "/".toList f.nodes _ r hroot)
  · -- the module node already exists and is reused in place
    obtain ⟨ndi, hi, hip⟩ := pathIdxAux_sound ('/' :: rest) f.nodes i ho
    have hadd : fdt_add_subnode f (Int.ofNat r) rest = (f, -FDT_ERR_EXISTS) := by
      refine fdt_add_subnode_exists f r rootNd hr rest ?_
      rw [hchild, ho]
      simp
    have hfi : find_node f ('/' :: rest) = Int.ofNat i :=
      find_node_found f ('/' :: rest) i rfl ho
    have hres : update_fdt_for_xen f module sz compatible ('/' :: rest) =
        (⟨f.nodes.set i ⟨ndi.path, xenProps compatible module sz ndi.props⟩⟩, SUCCESS) := by
      simp only [update_fdt_for_xen, List.drop_succ_cons, List.drop_zero]
      rw [hfr, if_neg (not_lt_zero_ofNat r), hadd]
      dsimp only
      rw [if_pos rfl, hfi]
      rw [if_neg (not_lt_zero_ofNat i)]
      exact setModuleProps_run f i ndi hi compatible module sz
    rw [hres]
    dsimp only
    refine ⟨rfl, ?_, ?_, ?_, ?_⟩
    · have hc1 := countPath_set_samePath ('/' :: rest) f.nodes i ndi
        ⟨ndi.path, xenProps compatible module sz ndi.props⟩ hi rfl
      rw [hc1]
      have := countPath_pos ('/' :: rest) f.nodes i ho
      omega
    · exact (getPropByPath_set f ('/' :: rest) "compatible".toList i ndi
        ⟨ndi.path, xenProps compatible module sz ndi.props⟩ hi rfl ho).trans
        (xenProps_compatible compatible module sz ndi.props)
    · exact (getPropByPath_set f ('/' :: rest) "reg".toList i ndi
        ⟨ndi.path, xenProps compatible module sz ndi.props⟩ hi rfl ho).trans
        (xenProps_reg compatible module sz ndi.props)
    · exact (pathIdx_set f "/".toList i ndi
        ⟨ndi.path, xenProps compatible module sz ndi.props⟩ hi rfl).trans hroot

/-- C1 (amended): behaviour of `update_fdt_memory` against a target tree
whose root is resolvable.  First part: when the source tree has no
`/memory` node, the call fails with `FDT_ERR_NOTFOUND`, and — provided
the target already has a `/memory` node — the target is returned
byte-for-byte unmodified (when the target lacks `/memory`, an empty
`/memory` subnode has already been created before the failure, so the
unmodified part needs that proviso).  Second part: whenever the source
`/memory` node exists with a `reg` property, the call succeeds and copies
that property's byte length and contents exactly into the target
`/memory` node's `reg` property. -/
theorem update_fdt_memory_spec (t s : Fdt) (r : Nat)
    (hroot : pathIdx t "/".toList = some r) :
    (pathIdx s "/memory".toList = none → pathIdx t "/memory".toList ≠ none →
      update_fdt_memory t s = (t, -FDT_ERR_NOTFOUND)) ∧
    (∀ k p, pathIdx s "/memory".toList = some k →
      fdt_getprop s (Int.ofNat k) "reg".toList = some p →
      (update_fdt_memory t s).2 = SUCCESS ∧
      getPropByPath (update_fdt_memory t s).1 "/memory".toList "reg".toList
        = some p.data) := by
  obtain ⟨rootNd, hr, hrp⟩ := pathIdxAux_sound "/".toList t.nodes r hroot
  have hfr : find_node t "/".toList = Int.ofNat r := find_node_found t _ r rfl hroot
  have hchild : childPath rootNd.path "memory".toList = "/memory".toList := by
    rw [hrp]; rfl
  constructor
  · intro hsn htm
    rcases hj : pathIdx t "/memory".toList with _ | j
    · exact absurd hj htm
    · have hadd : fdt_add_subnode t (Int.ofNat r) "memory".toList =
          (t, -FDT_ERR_EXISTS) := by
        refine fdt_add_subnode_exists t r rootNd hr _ ?_
        rw [hchild, hj]; simp
      have hfm : find_node t "/memory".toList = Int.ofNat j :=
        find_node_found t _ j rfl hj
      have hsrc : fdt_path_offset s "/memory".toList = -FDT_ERR_NOTFOUND :=
        find_node_missing s "/memory".toList rfl hsn
      simp only [update_fdt_memory]
      rw [hfr, if_neg (not_lt_zero_ofNat r), hadd]
      dsimp only
      rw [if_pos rfl, hfm]
      rw [if_neg (not_lt_zero_ofNat j)]
      rw [hsrc]
      rw [if_pos (by norm_num [FDT_ERR_NOTFOUND] : -FDT_ERR_NOTFOUND < 0)]
  · intro k p hsk hpk
    have hsrc : fdt_path_offset s "/memory".toList = Int.ofNat k :=
      find_node_found s "/memory".toList k rfl hsk
    rcases hj : pathIdx t "/memory".toList with _ | j
    · -- the target `/memory` node is created first
      have hadd := fdt_add_subnode_create t r rootNd hr "memory".toList
        (by rw [hchild]; exact hj)
      rw [hchild] at hadd
      have hnew : (⟨t.nodes ++ [(⟨"/memory".toList, []⟩ : FdtNode)]⟩ : Fdt).nodes[
          t.nodes.length]? = some ⟨"/memory".toList, []⟩ :=
        getElem?_concat_len t.nodes _
      have hpa : pathIdx (⟨t.nodes ++ [(⟨"/memory".toList, []⟩ : FdtNode)]⟩ : Fdt)
          "/memory".toList = some t.nodes.length := by
        simp only [pathIdx] at hj ⊢
        rw [pathIdxAux_append_none _ _ _ hj]
        simp [pathIdxAux]
      have hset := fdt_setprop_run ⟨t.nodes ++ [(⟨"/memory".toList, []⟩ : FdtNode)]⟩
        t.nodes.length ⟨"/memory".toList, []⟩ hnew "reg".toList p.data
      have hres : update_fdt_memory t s =
          (⟨(t.nodes ++ [(⟨"/memory".toList, []⟩ : FdtNode)]).set t.nodes.length
            (⟨"/memory".toList, setPropList "reg".toList p.data []⟩ : FdtNode)⟩,
           SUCCESS) := by
        simp only [update_fdt_memory]
        rw [hfr, if_neg (not_lt_zero_ofNat r), hadd]
        dsimp only
        rw [if_neg (ofNat_ne_neg_exists t.nodes.length)]
        rw [if_neg (not_lt_zero_ofNat t.nodes.length)]
        rw [hsrc]
        rw [if_neg (not_lt_zero_ofNat k)]
        rw [hpk]
        exact hset
      rw [hres]
      dsimp only
      refine ⟨rfl, ?_⟩
      exact (getPropByPath_set ⟨t.nodes ++ [(⟨"/memory".toList, []⟩ : FdtNode)]⟩
        "/memory".toList "reg".toList t.nodes.length ⟨"/memory".toList, []⟩
        ⟨"/memory".toList, setPropList "reg".toList p.data []⟩ hnew rfl hpa).trans
        (getPropList_set_same "reg".toList p.data [])
    · -- the target `/memory` node already exists and is reused
      obtain ⟨ndj, hjn, hjp⟩ := pathIdxAux_sound "/memory".toList t.nodes j hj
      have hadd : fdt_add_subnode t (Int.ofNat r) "memory".toList =
          (t, -FDT_ERR_EXISTS) := by
        refine fdt_add_subnode_exists t r rootNd hr _ ?_
        rw [hchild, hj]; simp
      have hfm : find_node t "/memory".toList = Int.ofNat j :=
        find_node_found t _ j rfl hj
      have hset := fdt_setprop_run t j ndj hjn "reg".toList p.data
      have hres : update_fdt_memory t s =
          (⟨t.nodes.set j (⟨ndj.path, setPropList "reg".toList p.data ndj.props⟩ :
            FdtNode)⟩, SUCCESS) := by
        simp only [update_fdt_memory]
        rw [hfr, if_neg (not_lt_zero_ofNat r), hadd]
        dsimp only
        rw [if_pos rfl, hfm]
        rw [if_neg (not_lt_zero_ofNat j)]
        rw [hsrc]
        rw [if_neg (not_lt_zero_ofNat k)]
        rw [hpk]
        exact hset
      rw [hres]
      dsimp only
      refine ⟨rfl, ?_⟩
      exact (getPropByPath_set t "/memory".toList "reg".toList j ndj
        ⟨ndj.path, setPropList "reg".toList p.data ndj.props⟩ hjn rfl hj).trans
        (getPropList_set_same "reg".toList p.data ndj.props)

/-! ## Claim theorems -/

/-- C4 (amended): for any buffer whose leading magic field is not the
device-tree magic, `ensure_image_is_accessible` fails with the
`FDT_ERR_BADMAGIC` (HeaderInvalid) code, and the only operation performed
on the buffer is the initial single-cache-line invalidation: the
`[line_size, total_size)` region invalidation is not performed and no
property operation is attempted. -/
theorem ensure_image_bad_magic (img : List Nat) (h : be32at img 0 ≠ fdtMagic) :
    ensure_image_is_accessible img = (-FDT_ERR_BADMAGIC, [ImageEvent.invLine]) := by
  have hc : fdt_check_header img = -FDT_ERR_BADMAGIC := by
    rw [fdt_check_header, if_pos h]
  simp only [ensure_image_is_accessible, hc]
  rw [if_pos (by norm_num [FDT_ERR_BADMAGIC, SUCCESS] :
    (-FDT_ERR_BADMAGIC : Int) ≠ SUCCESS)]

/-- Witness for the amended C4 at the empty buffer, whose magic field
reads zero. -/
theorem ensure_image_bad_magic_witness :
    ensure_image_is_accessible [] = (-FDT_ERR_BADMAGIC, [ImageEvent.invLine]) :=
  ensure_image_bad_magic [] (by decide)

/-- C4 counterexample: the claim that no cache-coherence operation at all
is attempted on a bad-magic buffer is false — the code invalidates the
first cache line before it can validate the header.  Shown at the
4-byte buffer `de ad be ef` (the buffer the repository's own test uses). -/
theorem ensure_image_cache_counterexample :
    (ensure_image_is_accessible [0xde, 0xad, 0xbe, 0xef]).1 = -FDT_ERR_BADMAGIC ∧
    ImageEvent.invLine ∈ (ensure_image_is_accessible [0xde, 0xad, 0xbe, 0xef]).2 := by
  decide

/-- C7: when the `/chosen` node exists but its `linux,initrd-start`
property is absent or malformed (non-positive reported size),
`find_fit_subimage` falls back to the boot tree's own address instead of
failing. -/
theorem find_fit_subimage_fallback (w : World) (c : Nat)
    (hchosen : pathIdx w.fdt "/chosen".toList = some c)
    (hprop : propSize (fdt_getprop w.fdt (Int.ofNat c) "linux,initrd-start".toList)
      ≤ 0) :
    find_fit_subimage w = some w.fdtAddr := by
  have hfc : find_node w.fdt "/chosen".toList = Int.ofNat c :=
    find_node_found w.fdt _ c rfl hchosen
  simp only [find_fit_subimage]
  rw [hfc, if_neg (not_lt_zero_ofNat c), if_pos hprop]

/-- Witness for C7: a tree whose `/chosen` node has no
`linux,initrd-start` property yields the tree's own address. -/
theorem find_fit_subimage_fallback_witness :
    find_fit_subimage
      ⟨⟨[⟨"/".toList, []⟩, ⟨"/chosen".toList, []⟩]⟩, 4242, fun _ => 0⟩ =
      some 4242 :=
  find_fit_subimage_fallback
    ⟨⟨[⟨"/".toList, []⟩, ⟨"/chosen".toList, []⟩]⟩, 4242, fun _ => 0⟩ 1
    (by decide) (by decide)

/-- C8: when any of the three mandatory out-pointers of
`get_subcomponent_information` is NULL, the call returns
`-FDT_ERR_BADVALUE`, writes no out-parameter, and performs no node lookup
or property read on the image. -/
theorem get_subcomponent_null_guard (img : Fdt) (path : List Char)
    (loadNull dataNull sizeNull nodeNull : Bool)
    (h : loadNull = true ∨ dataNull = true ∨ sizeNull = true) :
    get_subcomponent_information img path loadNull dataNull sizeNull nodeNull =
      (-FDT_ERR_BADVALUE, noOuts, []) := by
  simp only [get_subcomponent_information]
  rw [if_pos (by rcases h with h | h | h <;> simp [h])]

/-- Witness for C8 with a NULL load-location pointer. -/
theorem get_subcomponent_null_guard_witness :
    get_subcomponent_information ⟨[]⟩ "/images/a@1".toList true false false false =
      (-FDT_ERR_BADVALUE, noOuts, []) :=
  get_subcomponent_null_guard ⟨[]⟩ "/images/a@1".toList true false false false
    (Or.inl rfl)

/-- C9: whenever `get_subcomponent_information` returns unsuccessfully,
none of its out-parameters has been written — they are assigned only on
the success path, after every check has passed. -/
theorem get_subcomponent_error_no_outs (img : Fdt) (path : List Char)
    (loadNull dataNull sizeNull nodeNull : Bool)
    (h : (get_subcomponent_information img path loadNull dataNull sizeNull nodeNull).1
      ≠ SUCCESS) :
    (get_subcomponent_information img path loadNull dataNull sizeNull nodeNull).2.1
      = noOuts := by
  by_cases hb : (dataNull || loadNull || sizeNull) = true
  · simp only [get_subcomponent_information, if_pos hb]
  · simp only [get_subcomponent_information, if_neg hb] at h ⊢
    by_cases hn : find_node img path < 0
    · rw [if_pos hn]
    · rw [if_neg hn] at h ⊢
      by_cases hd : propSize (fdt_getprop img (find_node img path) "data".toList) ≤ 0
      · rw [if_pos hd]
      · rw [if_neg hd] at h ⊢
        by_cases hl : propSize (fdt_getprop img (find_node img path) "load".toList) ≤ 0
        · rw [if_pos hl]
        · rw [if_neg hl] at h
          exact absurd rfl h

/-- Witness for C9: looking a node up in an empty tree fails, and all out
slots stay unwritten. -/
theorem get_subcomponent_error_no_outs_witness :
    (get_subcomponent_information ⟨[]⟩ "/images/a@1".toList false false false false).2.1
      = noOuts :=
  get_subcomponent_error_no_outs ⟨[]⟩ "/images/a@1".toList false false false false
    (by decide)

/-- C6: for a well-formed source tree whose `/chosen` node holds a
`linux,initrd-start` cell encoding `V`, and whose memory carries a valid
device-tree header at the decoded address, `find_fit_subimage` resolves
the subimage pointer to `V` interpreted as a big-endian 32-bit integer
zero-extended to a native pointer — an address above 4 GiB is truncated
to its low 32 bits by this legacy single-cell decoding. -/
theorem find_fit_subimage_resolves (w : World) (c : Nat) (nd : FdtNode)
    (p : FdtProp) (V : Nat)
    (hchosen : pathIdx w.fdt "/chosen".toList = some c)
    (hnode : w.fdt.nodes[c]? = some nd)
    (hprop : getPropList "linux,initrd-start".toList nd.props = some p)
    (hdata : p.data = be32enc V)
    (hvalid : fdt_check_header (readBytes w.mem (V % 2 ^ 32) fdtHeaderSpan)
      = SUCCESS) :
    find_fit_subimage w = some (V % 2 ^ 32) := by
  have hfc : find_node w.fdt "/chosen".toList = Int.ofNat c :=
    find_node_found w.fdt _ c rfl hchosen
  have hgp : fdt_getprop w.fdt (Int.ofNat c) "linux,initrd-start".toList = some p :=
    (fdt_getprop_run w.fdt c nd hnode _).trans hprop
  have hl : p.data.length = 4 := by rw [hdata]; rfl
  have hloc : location_from_devicetree p.data = V % 2 ^ 32 := by
    rw [location_from_devicetree, hdata, be32dec_be32enc]
  have hens : (ensure_image_is_accessible
      (readBytes w.mem (V % 2 ^ 32) fdtHeaderSpan)).1 = SUCCESS := by
    simp only [ensure_image_is_accessible, hvalid]
    rw [if_neg (show ¬ (SUCCESS ≠ SUCCESS) from fun hx => hx rfl)]
  simp only [find_fit_subimage]
  rw [hfc, if_neg (not_lt_zero_ofNat c), hgp]
  dsimp only [propSize, Option.getD]
  rw [hl]
  rw [if_neg (by decide : ¬ (Int.ofNat 4 ≤ 0))]
  rw [hloc, hens]
  rw [if_neg (show ¬ (SUCCESS ≠ SUCCESS) from fun hx => hx rfl)]

/-- Witness for C6 at `V = 64`, with a valid header placed at address 64
(version 17, last compatible version 16). -/
theorem find_fit_subimage_resolves_witness :
    find_fit_subimage
      ⟨⟨[⟨"/".toList, []⟩,
         ⟨"/chosen".toList, [⟨"linux,initrd-start".toList, 0, be32enc 64⟩]⟩]⟩,
       5000,
       fun a =>
        if a = 64 then 0xd0 else if a = 65 then 0x0d else
        if a = 66 then 0xfe else if a = 67 then 0xed else
        if a = 87 then 17 else if a = 91 then 16 else 0⟩ =
      some (64 % 2 ^ 32) :=
  find_fit_subimage_resolves
    ⟨⟨[⟨"/".toList, []⟩,
       ⟨"/chosen".toList, [⟨"linux,initrd-start".toList, 0, be32enc 64⟩]⟩]⟩,
     5000,
     fun a =>
      if a = 64 then 0xd0 else if a = 65 then 0x0d else
      if a = 66 then 0xfe else if a = 67 then 0xed else
      if a = 87 then 17 else if a = 91 then 16 else 0⟩
    1 ⟨"/chosen".toList, [⟨"linux,initrd-start".toList, 0, be32enc 64⟩]⟩
    ⟨"linux,initrd-start".toList, 0, be32enc 64⟩ 64
    (by decide) (by decide) (by decide) (by decide) (by decide)

theorem ofNat_not_le_zero (k : Nat) (h : 0 < k) : ¬ (Int.ofNat k ≤ 0) := by
  intro hx
  rw [show (0 : Int) = Int.ofNat 0 from rfl] at hx
  exact absurd (Int.ofNat_le.mp hx) (by omega)

/-- Evaluation of `get_subcomponent_information` on a node that carries a
positive-size `data` property and a `load` property: it succeeds, and the
out-parameters receive the decoded load address, the data pointer, the
data size, and (when requested) the node offset. -/
theorem get_subcomponent_success (img : Fdt) (path : List Char) (i : Nat)
    (nd : FdtNode) (dp lp : FdtProp) (nodeNull : Bool)
    (hpath : path.head? = some '/')
    (hfind : pathIdx img path = some i)
    (hnode : img.nodes[i]? = some nd)
    (hdata : getPropList "data".toList nd.props = some dp)
    (hpos : 0 < dp.data.length)
    (hload : getPropList "load".toList nd.props = some lp)
    (hlpos : 0 < lp.data.length) :
    get_subcomponent_information img path false false false nodeNull =
      (SUCCESS,
       ⟨some (be32dec lp.data), some dp.addr, some (Int.ofNat dp.data.length),
        if nodeNull then none else some (Int.ofNat i)⟩,
       [AccessEvent.nodeLookup path, AccessEvent.propRead "data".toList,
        AccessEvent.propRead "load".toList]) := by
  have hfn : find_node img path = Int.ofNat i := find_node_found img path i hpath hfind
  have hgd : fdt_getprop img (Int.ofNat i) "data".toList = some dp :=
    (fdt_getprop_run img i nd hnode _).trans hdata
  have hgl : fdt_getprop img (Int.ofNat i) "load".toList = some lp :=
    (fdt_getprop_run img i nd hnode _).trans hload
  simp only [get_subcomponent_information]
  rw [if_neg (by decide : ¬ ((false || false || false) = true))]
  rw [hfn, if_neg (not_lt_zero_ofNat i), hgd]
  dsimp only [propSize, Option.getD]
  rw [if_neg (ofNat_not_le_zero dp.data.length hpos)]
  rw [hgl]
  dsimp only [propSize, Option.getD]
  rw [if_neg (ofNat_not_le_zero lp.data.length hlpos)]
  rfl

/-- C2: for every FIT node whose `data` property has positive size `S`
and whose `load` property decodes to address `A`,
`load_image_component` returns `A` and copies exactly `S` bytes from the
data pointer to `A`: the destination bytes equal the original data bytes
one for one, whatever the overlap between the two ranges, and no byte
outside `[A, A+S)` changes. -/
theorem load_image_component_copies (w : MemWorld) (path : List Char) (i : Nat)
    (nd : FdtNode) (dp lp : FdtProp)
    (hpath : path.head? = some '/')
    (hfind : pathIdx w.img path = some i)
    (hnode : w.img.nodes[i]? = some nd)
    (hdata : getPropList "data".toList nd.props = some dp)
    (hpos : 0 < dp.data.length)
    (hload : getPropList "load".toList nd.props = some lp)
    (hlpos : 0 < lp.data.length)
    (hmem : ∀ j, j < dp.data.length → w.mem (dp.addr + j) = dp.data.getD j 0) :
    (load_image_component w path).1 = some (be32dec lp.data) ∧
    (∀ j, j < dp.data.length →
      (load_image_component w path).2 (be32dec lp.data + j) = dp.data.getD j 0) ∧
    (∀ a, a < be32dec lp.data ∨ be32dec lp.data + dp.data.length ≤ a →
      (load_image_component w path).2 a = w.mem a) := by
  have hget := get_subcomponent_success w.img path i nd dp lp true hpath hfind hnode
    hdata hpos hload hlpos
  have hres : load_image_component w path =
      (some (be32dec lp.data),
       memmove (be32dec lp.data) dp.addr dp.data.length w.mem) := by
    simp only [load_image_component, hget]
    rw [if_neg (show ¬ (SUCCESS ≠ SUCCESS) from fun hx => hx rfl)]
    dsimp only [Option.getD]
    rfl
  rw [hres]
  refine ⟨rfl, ?_, ?_⟩
  · intro j hj
    exact (memmove_copies (be32dec lp.data) dp.addr dp.data.length w.mem j hj).trans
      (hmem j hj)
  · intro a ha
    exact memmove_frame (be32dec lp.data) dp.addr dp.data.length w.mem a ha

/-- Witness for C2 with overlapping ranges: three data bytes at addresses
100-102 are copied to load address 99, which overlaps the source. -/
theorem load_image_component_copies_witness :
    (load_image_component
      ⟨⟨[⟨"/".toList, []⟩,
         ⟨"/images/kernel@1".toList,
          [⟨"data".toList, 100, [5, 6, 7]⟩, ⟨"load".toList, 200, [0, 0, 0, 99]⟩]⟩]⟩,
       fun a => if a = 100 then 5 else if a = 101 then 6 else if a = 102 then 7 else 0⟩
      "/images/kernel@1".toList).1 = some (be32dec [0, 0, 0, 99]) ∧
    (∀ j, j < 3 →
      (load_image_component
        ⟨⟨[⟨"/".toList, []⟩,
           ⟨"/images/kernel@1".toList,
            [⟨"data".toList, 100, [5, 6, 7]⟩, ⟨"load".toList, 200, [0, 0, 0, 99]⟩]⟩]⟩,
         fun a => if a = 100 then 5 else if a = 101 then 6 else if a = 102 then 7 else 0⟩
        "/images/kernel@1".toList).2 (be32dec [0, 0, 0, 99] + j) = [5, 6, 7].getD j 0) ∧
    (∀ a, a < be32dec [0, 0, 0, 99] ∨ be32dec [0, 0, 0, 99] + 3 ≤ a →
      (load_image_component
        ⟨⟨[⟨"/".toList, []⟩,
           ⟨"/images/kernel@1".toList,
            [⟨"data".toList, 100, [5, 6, 7]⟩, ⟨"load".toList, 200, [0, 0, 0, 99]⟩]⟩]⟩,
         fun a => if a = 100 then 5 else if a = 101 then 6 else if a = 102 then 7 else 0⟩
        "/images/kernel@1".toList).2 a =
      (fun a => if a = 100 then 5 else if a = 101 then 6 else if a = 102 then 7 else 0) a) :=
  load_image_component_copies
    ⟨⟨[⟨"/".toList, []⟩,
       ⟨"/images/kernel@1".toList,
        [⟨"data".toList, 100, [5, 6, 7]⟩, ⟨"load".toList, 200, [0, 0, 0, 99]⟩]⟩]⟩,
     fun a => if a = 100 then 5 else if a = 101 then 6 else if a = 102 then 7 else 0⟩
    "/images/kernel@1".toList 1
    ⟨"/images/kernel@1".toList,
     [⟨"data".toList, 100, [5, 6, 7]⟩, ⟨"load".toList, 200, [0, 0, 0, 99]⟩]⟩
    ⟨"data".toList, 100, [5, 6, 7]⟩ ⟨"load".toList, 200, [0, 0, 0, 99]⟩
    (by decide) (by decide) (by decide) (by decide) (by decide) (by decide) (by decide)
    (by decide)

/-- C5 (amended): the extent-resolution layer of `src/image.c` provides
only the legacy single-cell `load` decoder.  A component node that
describes its placement with a standard two-cell `reg` pair but has no
`load` property cannot be queried: `get_subcomponent_information` fails
with `-FDT_ERR_NOTFOUND` and writes no out-parameter, even though the
spec-described accessor `resolve_extent_pair` would decode the pair.  No
`resolve_extent_pair` accessor exists in the source. -/
theorem extent_resolver_single_form (img : Fdt) (path : List Char) (i : Nat)
    (nd : FdtNode) (dp rp : FdtProp)
    (hpath : path.head? = some '/')
    (hfind : pathIdx img path = some i)
    (hnode : img.nodes[i]? = some nd)
    (hdata : getPropList "data".toList nd.props = some dp)
    (hpos : 0 < dp.data.length)
    (hnoload : getPropList "load".toList nd.props = none)
    (hreg : getPropList "reg".toList nd.props = some rp)
    (hlen : rp.data.length = 16) :
    get_subcomponent_information img path false false false false =
      (-FDT_ERR_NOTFOUND, noOuts,
       [AccessEvent.nodeLookup path, AccessEvent.propRead "data".toList,
        AccessEvent.propRead "load".toList]) ∧
    resolve_extent_pair img (Int.ofNat i) =
      some (be32dec (rp.data.take 4) * 2 ^ 32 + be32dec ((rp.data.drop 4).take 4),
            be32dec ((rp.data.drop 8).take 4) * 2 ^ 32 +
              be32dec ((rp.data.drop 12).take 4)) := by
  have hfn : find_node img path = Int.ofNat i := find_node_found img path i hpath hfind
  have hgd : fdt_getprop img (Int.ofNat i) "data".toList = some dp :=
    (fdt_getprop_run img i nd hnode _).trans hdata
  have hgl : fdt_getprop img (Int.ofNat i) "load".toList = none :=
    (fdt_getprop_run img i nd hnode _).trans hnoload
  have hgr : fdt_getprop img (Int.ofNat i) "reg".toList = some rp :=
    (fdt_getprop_run img i nd hnode _).trans hreg
  constructor
  · simp only [get_subcomponent_information]
    rw [if_neg (by decide : ¬ ((false || false || false) = true))]
    rw [hfn, if_neg (not_lt_zero_ofNat i), hgd]
    dsimp only [propSize, Option.getD]
    rw [if_neg (ofNat_not_le_zero dp.data.length hpos)]
    rw [hgl]
    dsimp only [propSize]
    rw [if_pos (by norm_num [FDT_ERR_NOTFOUND] : (-FDT_ERR_NOTFOUND : Int) ≤ 0)]
    rfl
  · simp only [resolve_extent_pair, hgr]
    rw [if_pos hlen]

/-- Witness for the amended C5: a node carrying `data` and a 16-byte
`reg` pair (address `0x40000000`, size `4096`) but no `load` property. -/
theorem extent_resolver_single_form_witness :
    get_subcomponent_information
      ⟨[⟨"/".toList, []⟩,
        ⟨"/images/mod@1".toList,
         [⟨"data".toList, 300, [9, 9]⟩,
          ⟨"reg".toList, 310, be64enc 0x40000000 ++ be64enc 4096⟩]⟩]⟩
      "/images/mod@1".toList false false false false =
      (-FDT_ERR_NOTFOUND, noOuts,
       [AccessEvent.nodeLookup "/images/mod@1".toList,
        AccessEvent.propRead "data".toList, AccessEvent.propRead "load".toList]) ∧
    resolve_extent_pair
      ⟨[⟨"/".toList, []⟩,
        ⟨"/images/mod@1".toList,
         [⟨"data".toList, 300, [9, 9]⟩,
          ⟨"reg".toList, 310, be64enc 0x40000000 ++ be64enc 4096⟩]⟩]⟩
      (Int.ofNat 1) =
      some (be32dec ((be64enc 0x40000000 ++ be64enc 4096).take 4) * 2 ^ 32 +
              be32dec (((be64enc 0x40000000 ++ be64enc 4096).drop 4).take 4),
            be32dec (((be64enc 0x40000000 ++ be64enc 4096).drop 8).take 4) * 2 ^ 32 +
              be32dec (((be64enc 0x40000000 ++ be64enc 4096).drop 12).take 4)) :=
  extent_resolver_single_form
    ⟨[⟨"/".toList, []⟩,
      ⟨"/images/mod@1".toList,
       [⟨"data".toList, 300, [9, 9]⟩,
        ⟨"reg".toList, 310, be64enc 0x40000000 ++ be64enc 4096⟩]⟩]⟩
    "/images/mod@1".toList 1
    ⟨"/images/mod@1".toList,
     [⟨"data".toList, 300, [9, 9]⟩,
      ⟨"reg".toList, 310, be64enc 0x40000000 ++ be64enc 4096⟩]⟩
    ⟨"data".toList, 300, [9, 9]⟩
    ⟨"reg".toList, 310, be64enc 0x40000000 ++ be64enc 4096⟩
    (by decide) (by decide) (by decide) (by decide) (by decide) (by decide)
    (by decide) (by decide)

/-- C5 counterexample: the claim that the two-cell `reg` form is
supported for querying a component's placement fails on the code — on a
node whose placement is given only as a `reg` pair, the sole extent
accessor `get_subcomponent_information` returns `-FDT_ERR_NOTFOUND`
instead of the placement. -/
theorem extent_resolver_pair_counterexample :
    (get_subcomponent_information
      ⟨[⟨"/".toList, []⟩,
        ⟨"/images/rmod@1".toList,
         [⟨"data".toList, 300, [1, 2, 3, 4]⟩,
          ⟨"reg".toList, 310, be64enc 4096 ++ be64enc 64⟩]⟩]⟩
      "/images/rmod@1".toList false false false false).1 = -FDT_ERR_NOTFOUND := by
  decide

/-- C1 counterexample: when the target tree lacks a `/memory` node and
the source has none either, the call does fail with `FDT_ERR_NOTFOUND`,
but the target is *not* left byte-for-byte unmodified — an empty
`/memory` subnode has been added to it before the source lookup fails
(src/image.c creates the target node at line 353, before scanning the
source at line 367). -/
theorem update_fdt_memory_unmodified_counterexample :
    (update_fdt_memory ⟨[⟨"/".toList, []⟩]⟩ ⟨[⟨"/".toList, []⟩]⟩).2 =
      -FDT_ERR_NOTFOUND ∧
    (update_fdt_memory ⟨[⟨"/".toList, []⟩]⟩ ⟨[⟨"/".toList, []⟩]⟩).1 ≠
      (⟨[⟨"/".toList, []⟩]⟩ : Fdt) := by
  decide

/-- Witness for the amended C1: with a target that already has `/memory`,
a memory-less source leaves it untouched with `FDT_ERR_NOTFOUND`, and a
source `/memory` `reg` of bytes `[1,...,8]` is copied over exactly. -/
theorem update_fdt_memory_spec_witness :
    (update_fdt_memory
        ⟨[⟨"/".toList, []⟩, ⟨"/memory".toList, []⟩]⟩
        ⟨[⟨"/".toList, []⟩]⟩ =
      (⟨[⟨"/".toList, []⟩, ⟨"/memory".toList, []⟩]⟩, -FDT_ERR_NOTFOUND)) ∧
    ((update_fdt_memory
        ⟨[⟨"/".toList, []⟩, ⟨"/memory".toList, []⟩]⟩
        ⟨[⟨"/".toList, []⟩,
          ⟨"/memory".toList,
           [⟨"reg".toList, 40, [1, 2, 3, 4, 5, 6, 7, 8]⟩]⟩]⟩).2 = SUCCESS ∧
      getPropByPath
        (update_fdt_memory
          ⟨[⟨"/".toList, []⟩, ⟨"/memory".toList, []⟩]⟩
          ⟨[⟨"/".toList, []⟩,
            ⟨"/memory".toList,
             [⟨"reg".toList, 40, [1, 2, 3, 4, 5, 6, 7, 8]⟩]⟩]⟩).1
        "/memory".toList "reg".toList =
        some (⟨"reg".toList, 40, [1, 2, 3, 4, 5, 6, 7, 8]⟩ : FdtProp).data) :=
  ⟨(update_fdt_memory_spec
      ⟨[⟨"/".toList, []⟩, ⟨"/memory".toList, []⟩]⟩
      ⟨[⟨"/".toList, []⟩]⟩ 0 (by decide)).1 (by decide) (by decide),
   (update_fdt_memory_spec
      ⟨[⟨"/".toList, []⟩, ⟨"/memory".toList, []⟩]⟩
      ⟨[⟨"/".toList, []⟩,
        ⟨"/memory".toList, [⟨"reg".toList, 40, [1, 2, 3, 4, 5, 6, 7, 8]⟩]⟩]⟩
      0 (by decide)).2 1
     ⟨"reg".toList, 40, [1, 2, 3, 4, 5, 6, 7, 8]⟩ (by decide) (by decide)⟩

/-- C3 counterexample: with a module node name that lacks the leading
slash (`"m0"`), the first call creates a node named by the remainder
(`"0"`), and the second call's already-exists fallback fails with
`FDT_ERR_BADPATH`, so the tree holds no node of the requested name at
all and the final properties do not reflect the second call. -/
theorem update_fdt_for_xen_noslash_counterexample :
    (update_fdt_for_xen
      (update_fdt_for_xen ⟨[⟨"/".toList, []⟩]⟩ 4096 16 "roleA".toList "m0".toList).1
      8192 32 "roleB".toList "m0".toList).2 = -FDT_ERR_BADPATH ∧
    countPath "m0".toList
      (update_fdt_for_xen
        (update_fdt_for_xen ⟨[⟨"/".toList, []⟩]⟩ 4096 16 "roleA".toList "m0".toList).1
        8192 32 "roleB".toList "m0".toList).1.nodes = 0 := by
  decide

/-- C3 (amended): for a module node name with the leading slash the code
expects, calling `update_fdt_for_xen` twice with the same name (on a
target whose root resolves and which holds at most one node of that
name) leaves exactly one module node of that name, whose final
`compatible` is the two-entry string list [second call's role,
"multiboot,module"] and whose final `reg` is the second call's
(address, size) as two 64-bit cells. -/
theorem update_fdt_for_xen_idempotent (f : Fdt) (r : Nat) (rest : List Char)
    (a1 sz1 a2 sz2 : Nat) (c1 c2 : List Char)
    (hroot : pathIdx f "/".toList = some r)
    (hcount : countPath ('/' :: rest) f.nodes ≤ 1) :
    (update_fdt_for_xen (update_fdt_for_xen f a1 sz1 c1 ('/' :: rest)).1
      a2 sz2 c2 ('/' :: rest)).2 = SUCCESS ∧
    countPath ('/' :: rest)
      (update_fdt_for_xen (update_fdt_for_xen f a1 sz1 c1 ('/' :: rest)).1
        a2 sz2 c2 ('/' :: rest)).1.nodes = 1 ∧
    getPropByPath
      (update_fdt_for_xen (update_fdt_for_xen f a1 sz1 c1 ('/' :: rest)).1
        a2 sz2 c2 ('/' :: rest)).1 ('/' :: rest) "compatible".toList =
      some (strBytes c2 ++ strBytes "multiboot,module".toList) ∧
    getPropByPath
      (update_fdt_for_xen (update_fdt_for_xen f a1 sz1 c1 ('/' :: rest)).1
        a2 sz2 c2 ('/' :: rest)).1 ('/' :: rest) "reg".toList =
      some (be64enc a2 ++ be64enc sz2) := by
  obtain ⟨h1a, h1b, h1c, h1d, h1e⟩ := update_xen_run f r rest a1 sz1 c1 hroot hcount
  obtain ⟨h2a, h2b, h2c, h2d, h2e⟩ :=
    update_xen_run (update_fdt_for_xen f a1 sz1 c1 ('/' :: rest)).1 r rest a2 sz2 c2
      h1e (by omega)
  exact ⟨h2a, h2b, h2c, h2d⟩

/-- Witness for the amended C3 at `"/module@0"` on a root-only tree. -/
theorem update_fdt_for_xen_idempotent_witness :
    (update_fdt_for_xen
      (update_fdt_for_xen ⟨[⟨"/".toList, []⟩]⟩ 4096 100 "multiboot,kernel".toList
        ('/' :: "module@0".toList)).1
      8192 200 "multiboot,ramdisk".toList ('/' :: "module@0".toList)).2 = SUCCESS ∧
    countPath ('/' :: "module@0".toList)
      (update_fdt_for_xen
        (update_fdt_for_xen ⟨[⟨"/".toList, []⟩]⟩ 4096 100 "multiboot,kernel".toList
          ('/' :: "module@0".toList)).1
        8192 200 "multiboot,ramdisk".toList ('/' :: "module@0".toList)).1.nodes = 1 ∧
    getPropByPath
      (update_fdt_for_xen
        (update_fdt_for_xen ⟨[⟨"/".toList, []⟩]⟩ 4096 100 "multiboot,kernel".toList
          ('/' :: "module@0".toList)).1
        8192 200 "multiboot,ramdisk".toList ('/' :: "module@0".toList)).1
      ('/' :: "module@0".toList) "compatible".toList =
      some (strBytes "multiboot,ramdisk".toList ++
        strBytes "multiboot,module".toList) ∧
    getPropByPath
      (update_fdt_for_xen
        (update_fdt_for_xen ⟨[⟨"/".toList, []⟩]⟩ 4096 100 "multiboot,kernel".toList
          ('/' :: "module@0".toList)).1
        8192 200 "multiboot,ramdisk".toList ('/' :: "module@0".toList)).1
      ('/' :: "module@0".toList) "reg".toList =
      some (be64enc 8192 ++ be64enc 200) :=
  update_fdt_for_xen_idempotent ⟨[⟨"/".toList, []⟩]⟩ 0 "module@0".toList
    4096 100 8192 200 "multiboot,kernel".toList "multiboot,ramdisk".toList
    (by decide) (by decide)

/-- A creating run of `update_fdt_for_xen` for an arbitrary node-name
argument: when no node at the stripped-name path exists yet, the call
appends a node whose path is the root prefix plus the name *minus its
first character*, and succeeds. -/
theorem update_xen_create (f : Fdt) (r : Nat) (nodeName : List Char) (a s : Nat)
    (c : List Char)
    (hroot : pathIdx f "/".toList = some r)
    (hnew : pathIdx f ('/' :: nodeName.drop 1) = none) :
    update_fdt_for_xen f a s c nodeName =
      (⟨(f.nodes ++ [(⟨'/' :: nodeName.drop 1, []⟩ : FdtNode)]).set f.nodes.length
        (⟨'/' :: nodeName.drop 1, xenProps c a s []⟩ : FdtNode)⟩, SUCCESS) := by
  obtain ⟨rootNd, hr, hrp⟩ := pathIdxAux_sound "/".toList f.nodes r hroot
  have hfr : find_node f "/".toList = Int.ofNat r := find_node_found f _ r rfl hroot
  have hchild : childPath rootNd.path (nodeName.drop 1) = '/' :: nodeName.drop 1 := by
    rw [hrp]; rfl
  have hadd : fdt_add_subnode f (Int.ofNat r) (nodeName.drop 1) =
      (⟨f.nodes ++ [(⟨'/' :: nodeName.drop 1, []⟩ : FdtNode)]⟩,
       Int.ofNat f.nodes.length) := by
    rw [fdt_add_subnode_create f r rootNd hr (nodeName.drop 1)
      (by rw [hchild]; exact hnew), hchild]
  have hnew2 : (⟨f.nodes ++ [(⟨'/' :: nodeName.drop 1, []⟩ : FdtNode)]⟩ : Fdt).nodes[
      f.nodes.length]? = some ⟨'/' :: nodeName.drop 1, []⟩ :=
    getElem?_concat_len f.nodes _
  simp only [update_fdt_for_xen]
  rw [hfr, if_neg (not_lt_zero_ofNat r), hadd]
  dsimp only
  rw [if_neg (ofNat_ne_neg_exists f.nodes.length)]
  rw [if_neg (not_lt_zero_ofNat f.nodes.length)]
  exact setModuleProps_run ⟨f.nodes ++ [(⟨'/' :: nodeName.drop 1, []⟩ : FdtNode)]⟩
    f.nodes.length ⟨'/' :: nodeName.drop 1, []⟩ hnew2 c a s

/-- C10: `update_fdt_for_xen` requires its `module_node_name` argument to
begin with a leading `/`.  Creation strips exactly the first character
and places the remainder under the root, so the created node's path is
`'/' :: nodeName.drop 1`; the already-exists fallback looks the *full*
name up as a path.  Consequently a repeat call finds the created node
again — succeeding — precisely when the name starts with `/`; otherwise
the fallback fails with `FDT_ERR_BADPATH`. -/
theorem update_fdt_for_xen_slash (f : Fdt) (r : Nat) (nodeName : List Char)
    (a1 sz1 a2 sz2 : Nat) (c1 c2 : List Char)
    (hroot : pathIdx f "/".toList = some r)
    (hnew : pathIdx f ('/' :: nodeName.drop 1) = none) :
    pathIdx (update_fdt_for_xen f a1 sz1 c1 nodeName).1 ('/' :: nodeName.drop 1)
      = some f.nodes.length ∧
    (nodeName.head? = some '/' →
      (update_fdt_for_xen (update_fdt_for_xen f a1 sz1 c1 nodeName).1
        a2 sz2 c2 nodeName).2 = SUCCESS) ∧
    (nodeName.head? ≠ some '/' →
      (update_fdt_for_xen (update_fdt_for_xen f a1 sz1 c1 nodeName).1
        a2 sz2 c2 nodeName).2 = -FDT_ERR_BADPATH) := by
  have h1 := update_xen_create f r nodeName a1 sz1 c1 hroot hnew
  have hnew2 : (⟨f.nodes ++ [(⟨'/' :: nodeName.drop 1, []⟩ : FdtNode)]⟩ : Fdt).nodes[
      f.nodes.length]? = some ⟨'/' :: nodeName.drop 1, []⟩ :=
    getElem?_concat_len f.nodes _
  have happ : pathIdx (⟨f.nodes ++ [(⟨'/' :: nodeName.drop 1, []⟩ : FdtNode)]⟩ : Fdt)
      ('/' :: nodeName.drop 1) = some f.nodes.length := by
    simp only [pathIdx] at hnew ⊢
    rw [pathIdxAux_append_none _ _ _ hnew]
    simp [pathIdxAux]
  have hpa1 : pathIdx (update_fdt_for_xen f a1 sz1 c1 nodeName).1
      ('/' :: nodeName.drop 1) = some f.nodes.length := by
    rw [h1]
    dsimp only
    exact (pathIdx_set ⟨f.nodes ++ [(⟨'/' :: nodeName.drop 1, []⟩ : FdtNode)]⟩
      ('/' :: nodeName.drop 1) f.nodes.length ⟨'/' :: nodeName.drop 1, []⟩
      ⟨'/' :: nodeName.drop 1, xenProps c1 a1 sz1 []⟩ hnew2 rfl).trans happ
  have hroot1 : pathIdx (update_fdt_for_xen f a1 sz1 c1 nodeName).1 "/".toList
      = some r := by
    rw [h1]
    dsimp only
    exact (pathIdx_set ⟨f.nodes ++ [(⟨'/' :: nodeName.drop 1, []⟩ : FdtNode)]⟩
      "/".toList f.nodes.length ⟨'/' :: nodeName.drop 1, []⟩
      ⟨'/' :: nodeName.drop 1, xenProps c1 a1 sz1 []⟩ hnew2 rfl).trans
      (pathIdxAux_append_left "/".toList f.nodes _ r hroot)
  have hcnt1 : countPath ('/' :: nodeName.drop 1)
      (update_fdt_for_xen f a1 sz1 c1 nodeName).1.nodes = 1 := by
    rw [h1]
    dsimp only
    rw [countPath_set_samePath ('/' :: nodeName.drop 1)
      (f.nodes ++ [(⟨'/' :: nodeName.drop 1, []⟩ : FdtNode)]) f.nodes.length
      ⟨'/' :: nodeName.drop 1, []⟩ ⟨'/' :: nodeName.drop 1, xenProps c1 a1 sz1 []⟩
      hnew2 rfl, countPath_append]
    rw [countPath_eq_zero _ _ hnew]
    simp [countPath]
  refine ⟨hpa1, ?_, ?_⟩
  · intro hhead
    rcases nodeName with _ | ⟨ch, rest⟩
    · simp at hhead
    · have hch : ch = '/' := by simpa using hhead
      subst hch
      simp only [List.drop_succ_cons, List.drop_zero] at hroot1 hcnt1
      obtain ⟨h2a, _, _, _, _⟩ :=
        update_xen_run (update_fdt_for_xen f a1 sz1 c1 ('/' :: rest)).1 r rest
          a2 sz2 c2 hroot1 (by omega)
      exact h2a
  · intro hhead
    generalize hg : (update_fdt_for_xen f a1 sz1 c1 nodeName).1 = f1 at hpa1 hroot1 ⊢
    obtain ⟨rootNd1, hr1, hrp1⟩ := pathIdxAux_sound "/".toList f1.nodes r hroot1
    have hfr1 : find_node f1 "/".toList = Int.ofNat r :=
      find_node_found f1 _ r rfl hroot1
    have hchild1 : childPath rootNd1.path (nodeName.drop 1)
        = '/' :: nodeName.drop 1 := by
      rw [hrp1]; rfl
    have hadd1 : fdt_add_subnode f1 (Int.ofNat r) (nodeName.drop 1)
        = (f1, -FDT_ERR_EXISTS) := by
      refine fdt_add_subnode_exists f1 r rootNd1 hr1 _ ?_
      rw [hchild1, hpa1]
      simp
    have hbad : find_node f1 nodeName = -FDT_ERR_BADPATH :=
      find_node_badpath f1 nodeName hhead
    simp only [update_fdt_for_xen]
    rw [hfr1, if_neg (not_lt_zero_ofNat r), hadd1]
    dsimp only
    rw [if_pos rfl, hbad]
    rw [if_pos (by norm_num [FDT_ERR_BADPATH] : (-FDT_ERR_BADPATH : Int) < 0)]

/-- Witness for C10 at `"/module@0"` on a root-only tree: the node is
created at `/module@0`, and the repeat call (leading slash present)
succeeds. -/
theorem update_fdt_for_xen_slash_witness :
    pathIdx (update_fdt_for_xen ⟨[⟨"/".toList, []⟩]⟩ 4096 100
        "multiboot,kernel".toList "/module@0".toList).1
      ('/' :: "/module@0".toList.drop 1) = some 1 ∧
    ("/module@0".toList.head? = some '/' →
      (update_fdt_for_xen
        (update_fdt_for_xen ⟨[⟨"/".toList, []⟩]⟩ 4096 100
          "multiboot,kernel".toList "/module@0".toList).1
        8192 200 "multiboot,ramdisk".toList "/module@0".toList).2 = SUCCESS) ∧
    ("/module@0".toList.head? ≠ some '/' →
      (update_fdt_for_xen
        (update_fdt_for_xen ⟨[⟨"/".toList, []⟩]⟩ 4096 100
          "multiboot,kernel".toList "/module@0".toList).1
        8192 200 "multiboot,ramdisk".toList "/module@0".toList).2
        = -FDT_ERR_BADPATH) :=
  update_fdt_for_xen_slash ⟨[⟨"/".toList, []⟩]⟩ 0 "/module@0".toList
    4096 100 8192 200 "multiboot,kernel".toList "multiboot,ramdisk".toList
    (by decide) (by decide)
